import Mathlib

/-!
Verification of the sparkline rendering and report logic of `terminal.py`
(k8o5/terminal), shallowly embedded in Lean 4.

Numeric samples (Python floats) are modelled as rationals.  The rendered
sparkline string is modelled as a list of tokens: each ANSI colour escape
(`GREEN`, `RED`, `RESET`) becomes one token, each palette glyph one token.
This is faithful because those escapes are distinct fixed substrings in the
source and the claims speak about markers and glyph counts, not raw bytes.
-/

namespace Terminal

/-- Python `int(q)` on a non-negative or negative rational: truncation toward
zero, as `int()` behaves on floats. -/
def truncQ (q : ℚ) : ℤ :=
  if 0 ≤ q then ⌊q⌋ else ⌈q⌉

/-- Python `min(data_points)` for a non-empty list (`0` on `[]`, a case the
source never reaches because `create_sparkline` returns early on `[]`). -/
def pyMin : List ℚ → ℚ
  | [] => 0
  | x :: xs => xs.foldl min x

/-- Python `max(data_points)`, same convention as `pyMin`. -/
def pyMax : List ℚ → ℚ
  | [] => 0
  | x :: xs => xs.foldl max x

/-- Python `l[-1]` (last element), with a default for the empty list. -/
def pyLast {α : Type} (d : α) : List α → α
  | [] => d
  | [x] => x
  | _ :: y :: xs => pyLast d (y :: xs)

/-- Line 119 of `terminal.py`:
`val_range = max_val - min_val if max_val > min_val else 1`. -/
def valRange (dp : List ℚ) : ℚ :=
  if pyMax dp > pyMin dp then pyMax dp - pyMin dp else 1

/-- Line 127 of `terminal.py`:
`tick_index = int(((point - min_val) / val_range) * (len(ticks) - 1))`;
`n` stands for `len(ticks)`. -/
def tick_index (min_val val_range : ℚ) (n : ℕ) (point : ℚ) : ℤ :=
  truncQ (((point - min_val) / val_range) * ((n : ℚ) - 1))

/-- One token of the rendered sparkline string: a colour escape, a palette
glyph, or the trailing reset escape. -/
inductive SparkToken where
  | green : SparkToken
  | red : SparkToken
  | glyph : Char → SparkToken
  | reset : SparkToken
deriving DecidableEq, Repr

/-- The colour prefix computed for element `i` (lines 122-125 of
`terminal.py`): empty for `i = 0` or when colouring is off, `GREEN` when the
point strictly rose, `RED` when it strictly fell, empty on a tie. -/
def tick_color (dp : List ℚ) (colorize : Bool) (i : ℕ) : List SparkToken :=
  if colorize = true ∧ 0 < i then
    if dp.getD (i - 1) 0 < dp.getD i 0 then [SparkToken.green]
    else if dp.getD i 0 < dp.getD (i - 1) 0 then [SparkToken.red]
    else []
  else []

/-- Glyph `ticks[tick_index]` for element `i` (line 128 of `terminal.py`).  The
proven bounds show `tick_index` is in `[0, len ticks - 1]` whenever the
palette is non-empty, so the `getD` default is never consulted there. -/
def glyph_at (dp : List ℚ) (ticks : List Char) (i : ℕ) : SparkToken :=
  SparkToken.glyph
    (ticks.getD (tick_index (pyMin dp) (valRange dp) ticks.length (dp.getD i 0)).toNat ' ')

/-- The tokens contributed by element `i` of the loop body
(lines 121-128 of `terminal.py`): colour prefix, then the glyph. -/
def elem_tokens (dp : List ℚ) (ticks : List Char) (colorize : Bool) (i : ℕ) : List SparkToken :=
  tick_color dp colorize i ++ [glyph_at dp ticks i]

/-- Function `create_sparkline(data_points, ticks, colorize)` (lines 115-129
of `terminal.py`): empty string on empty input, otherwise the concatenated
per-element tokens followed by a single trailing `RESET`. -/
def create_sparkline (dp : List ℚ) (ticks : List Char) (colorize : Bool) : List SparkToken :=
  if dp.isEmpty then []
  else ((List.range dp.length).flatMap (elem_tokens dp ticks colorize)) ++ [SparkToken.reset]

/-- The tick index assigned to each sample, in order (the index computed at
line 127 of `terminal.py` for every iteration of the loop). -/
def sparkIndices (dp : List ℚ) (n : ℕ) : List ℤ :=
  dp.map (fun p => tick_index (pyMin dp) (valRange dp) n p)

/-- The palette `['▁','▂','▃','▄','▅','▆','▇','█']` of line 131. -/
def price_ticks : List Char := ['▁', '▂', '▃', '▄', '▅', '▆', '▇', '█']

/-- The whole-series trend of lines 137-138:
`GREEN ↑ if series and series[-1] > series[0] else RED ↓`;
`true` stands for the green up-arrow. -/
def trend_up (s : List ℚ) : Bool :=
  decide (s ≠ []) && decide (s.headD 0 < pyLast 0 s)

/-- The rendered market-cap text of `format_market_cap` (lines 50-61 of
`terminal.py`), abstracting the decimal formatting: `trillions q` stands for
`q` printed with two decimals and suffix `T` (and likewise `billions`,
`millions`), `plain q` for the comma-grouped rendering of `q` with no
suffix, `na` for the string `"N/A"`. -/
inductive MarketCapText where
  | na : MarketCapText
  | trillions : ℚ → MarketCapText
  | billions : ℚ → MarketCapText
  | millions : ℚ → MarketCapText
  | plain : ℚ → MarketCapText
deriving DecidableEq, Repr

/-- Function `format_market_cap(cap)` (lines 50-61 of `terminal.py`). -/
def format_market_cap (cap : Option ℚ) : MarketCapText :=
  match cap with
  | none => MarketCapText.na
  | some c =>
    if c ≥ 10 ^ 12 then MarketCapText.trillions (c / 10 ^ 12)
    else if c ≥ 10 ^ 9 then MarketCapText.billions (c / 10 ^ 9)
    else if c ≥ 10 ^ 6 then MarketCapText.millions (c / 10 ^ 6)
    else MarketCapText.plain c

/-- The fields read from `result['meta']` in `get_stock_data`
(lines 81-98 of `terminal.py`), each nullable (`meta.get`). -/
structure ChartMeta where
  regularMarketPrice : Option ℚ
  chartPreviousClose : Option ℚ
  regularMarketDayHigh : Option ℚ
  regularMarketDayLow : Option ℚ
  regularMarketVolume : Option ℚ
  marketCap : Option ℚ
  trailingPE : Option ℚ
  dividendYield : Option ℚ
  epsTrailingTwelveMonths : Option ℚ
  fiftyTwoWeekHigh : Option ℚ
  fiftyTwoWeekLow : Option ℚ

/-- The part of `result` that `get_stock_data` reads: the metadata and the two
raw series `result['indicators']['quote'][0]['close' / 'volume']`, whose
entries are nullable. -/
structure ChartResult where
  meta : ChartMeta
  close : List (Option ℚ)
  volume : List (Option ℚ)

/-- Python `raw[-30:]`: the trailing window of the last 30 samples (the whole
list when it is shorter). -/
def lastN (n : ℕ) (l : List (Option ℚ)) : List (Option ℚ) :=
  l.drop (l.length - n)

/-- The list-comprehension filter `[p for p in ... if p is not None]`. -/
def dropNone (l : List (Option ℚ)) : List ℚ :=
  l.filterMap id

/-- Line 101 of `terminal.py`:
`prices = [p for p in result[...]['close'][-30:] if p is not None]`. -/
def pricesWindow (r : ChartResult) : List ℚ :=
  dropNone (lastN 30 r.close)

/-- Line 102 of `terminal.py`, the volume analogue of `pricesWindow`. -/
def volumesWindow (r : ChartResult) : List ℚ :=
  dropNone (lastN 30 r.volume)

/-- Python truthiness of a nullable number, as used by the conditional
expressions of lines 148-154 (`None` and `0` are falsy). -/
def truthy (v : Option ℚ) : Bool :=
  match v with
  | none => false
  | some q => decide (q ≠ 0)

/-- One printed line of the report of `get_stock_data` (lines 85 and 142-158
of `terminal.py`), with the data the line displays as payload; `newsSection`
stands for the whole step-6 news block that follows the report. -/
inductive Line where
  | errNoPrice : Line
  | banner : Line
  | header : Line
  | price : ℚ → ℚ → ℚ → Bool → Line
  | mktCap : MarketCapText → Line
  | dash : Line
  | highLow : Option (ℚ × ℚ) → Line
  | week52 : Option (ℚ × ℚ) → Line
  | volumeLine : Option ℚ → Line
  | avgVol : ℚ → Line
  | peRatio : Option ℚ → Line
  | epsLine : Option ℚ → Line
  | divYield : Option ℚ → Line
  | priceGraph : List SparkToken → Bool → Line
  | volumeGraph : List SparkToken → Bool → Line
  | newsSection : Line
deriving DecidableEq

/-- The report body printed once both `current_price` and `previous_close`
are present (lines 88-158 of `terminal.py`, then the news step). -/
def fullReport (r : ChartResult) (current_price previous_close : ℚ) : List Line :=
  [Line.banner, Line.header, Line.banner,
   Line.price current_price (current_price - previous_close)
     ((current_price - previous_close) / previous_close * 100)
     (decide (0 ≤ current_price - previous_close)),
   Line.mktCap (format_market_cap r.meta.marketCap),
   Line.dash,
   Line.highLow
     (if truthy r.meta.regularMarketDayHigh && truthy r.meta.regularMarketDayLow then
       some (r.meta.regularMarketDayHigh.getD 0, r.meta.regularMarketDayLow.getD 0)
      else none),
   Line.week52
     (if truthy r.meta.fiftyTwoWeekHigh && truthy r.meta.fiftyTwoWeekLow then
       some (r.meta.fiftyTwoWeekHigh.getD 0, r.meta.fiftyTwoWeekLow.getD 0)
      else none),
   Line.volumeLine
     (if truthy r.meta.regularMarketVolume then r.meta.regularMarketVolume else none),
   Line.avgVol
     (if (volumesWindow r).isEmpty then 0
      else (volumesWindow r).sum / ((volumesWindow r).length : ℚ)),
   Line.peRatio (if truthy r.meta.trailingPE then r.meta.trailingPE else none),
   Line.epsLine (if truthy r.meta.epsTrailingTwelveMonths then
     r.meta.epsTrailingTwelveMonths else none),
   Line.divYield (if truthy r.meta.dividendYield then r.meta.dividendYield else none),
   Line.dash]
  ++ (if (pricesWindow r).isEmpty then []
      else [Line.priceGraph (create_sparkline (pricesWindow r) price_ticks true)
        (trend_up (pricesWindow r))])
  ++ (if (volumesWindow r).isEmpty then []
      else [Line.volumeGraph (create_sparkline (volumesWindow r) price_ticks true)
        (trend_up (volumesWindow r))])
  ++ [Line.banner, Line.newsSection]

/-- The lines `get_stock_data` prints after the chart JSON has parsed: if
`regularMarketPrice` or `chartPreviousClose` is missing, only the
"could not retrieve current price" diagnostic of line 85 is printed and the
function returns; otherwise the full report follows (lines 84-158). -/
def reportLines (r : ChartResult) : List Line :=
  match r.meta.regularMarketPrice, r.meta.chartPreviousClose with
  | some cp, some pc => fullReport r cp pc
  | _, _ => [Line.errNoPrice]

/-! ### Helper lemmas about minima, maxima and last elements -/

lemma foldl_min_le_init (xs : List ℚ) (x : ℚ) : xs.foldl min x ≤ x := by
  induction xs generalizing x with
  | nil => exact le_refl x
  | cons y ys ih => exact le_trans (ih (min x y)) (min_le_left x y)

lemma foldl_min_le_mem (xs : List ℚ) (x y : ℚ) (h : y ∈ xs) : xs.foldl min x ≤ y := by
  induction xs generalizing x with
  | nil => cases h
  | cons z zs ih =>
    rcases List.mem_cons.mp h with rfl | hz
    · exact le_trans (foldl_min_le_init zs (min x y)) (min_le_right x y)
    · exact ih (min x z) hz

lemma foldl_min_mem (xs : List ℚ) (x : ℚ) : xs.foldl min x = x ∨ xs.foldl min x ∈ xs := by
  induction xs generalizing x with
  | nil => exact Or.inl rfl
  | cons y ys ih =>
    rcases ih (min x y) with h | h
    · rcases min_choice x y with hm | hm
      · exact Or.inl (by rw [List.foldl_cons, h, hm])
      · exact Or.inr (by rw [List.foldl_cons, h, hm]; exact List.mem_cons_self y ys)
    · exact Or.inr (List.mem_cons_of_mem y h)

lemma init_le_foldl_max (xs : List ℚ) (x : ℚ) : x ≤ xs.foldl max x := by
  induction xs generalizing x with
  | nil => exact le_refl x
  | cons y ys ih => exact le_trans (le_max_left x y) (ih (max x y))

lemma mem_le_foldl_max (xs : List ℚ) (x y : ℚ) (h : y ∈ xs) : y ≤ xs.foldl max x := by
  induction xs generalizing x with
  | nil => cases h
  | cons z zs ih =>
    rcases List.mem_cons.mp h with rfl | hz
    · exact le_trans (le_max_right x y) (init_le_foldl_max zs (max x y))
    · exact ih (max x z) hz

lemma foldl_max_mem (xs : List ℚ) (x : ℚ) : xs.foldl max x = x ∨ xs.foldl max x ∈ xs := by
  induction xs generalizing x with
  | nil => exact Or.inl rfl
  | cons y ys ih =>
    rcases ih (max x y) with h | h
    · rcases max_choice x y with hm | hm
      · exact Or.inl (by rw [List.foldl_cons, h, hm])
      · exact Or.inr (by rw [List.foldl_cons, h, hm]; exact List.mem_cons_self y ys)
    · exact Or.inr (List.mem_cons_of_mem y h)

lemma pyMin_le (dp : List ℚ) (x : ℚ) (h : x ∈ dp) : pyMin dp ≤ x := by
  cases dp with
  | nil => cases h
  | cons a t =>
    rcases List.mem_cons.mp h with rfl | hx
    · exact foldl_min_le_init t x
    · exact foldl_min_le_mem t a x hx

lemma pyMin_mem (dp : List ℚ) (h : dp ≠ []) : pyMin dp ∈ dp := by
  cases dp with
  | nil => exact absurd rfl h
  | cons a t =>
    rcases foldl_min_mem t a with h1 | h1
    · simp only [pyMin, h1]; exact List.mem_cons_self a t
    · exact List.mem_cons_of_mem a h1

lemma le_pyMax (dp : List ℚ) (x : ℚ) (h : x ∈ dp) : x ≤ pyMax dp := by
  cases dp with
  | nil => cases h
  | cons a t =>
    rcases List.mem_cons.mp h with rfl | hx
    · exact init_le_foldl_max t x
    · exact mem_le_foldl_max t a x hx

lemma pyMax_mem (dp : List ℚ) (h : dp ≠ []) : pyMax dp ∈ dp := by
  cases dp with
  | nil => exact absurd rfl h
  | cons a t =>
    rcases foldl_max_mem t a with h1 | h1
    · simp only [pyMax, h1]; exact List.mem_cons_self a t
    · exact List.mem_cons_of_mem a h1

lemma pyMin_le_pyMax (dp : List ℚ) (h : dp ≠ []) : pyMin dp ≤ pyMax dp :=
  le_trans (pyMin_le dp (pyMax dp) (pyMax_mem dp h)) (le_refl _)

lemma valRange_pos (dp : List ℚ) : 0 < valRange dp := by
  unfold valRange
  split
  · next h => exact sub_pos.mpr h
  · exact one_pos

lemma pyLast_cons_cons {α : Type} (d a b : α) (t : List α) :
    pyLast d (a :: b :: t) = pyLast d (b :: t) := rfl

lemma pyLast_mem {α : Type} (d : α) : ∀ (l : List α), l ≠ [] → pyLast d l ∈ l
  | [], h => absurd rfl h
  | [x], _ => by simp [pyLast]
  | a :: b :: t, _ => by
    rw [pyLast_cons_cons]
    exact List.mem_cons_of_mem a (pyLast_mem d (b :: t) (by simp))

lemma pyLast_map {α β : Type} (d : α) (e : β) (f : α → β) :
    ∀ (l : List α), l ≠ [] → pyLast e (l.map f) = f (pyLast d l)
  | [], h => absurd rfl h
  | [x], _ => by simp [pyLast]
  | a :: b :: t, _ => by
    rw [List.map_cons, List.map_cons, pyLast_cons_cons, pyLast_cons_cons, ← List.map_cons]
    exact pyLast_map d e f (b :: t) (by simp)

lemma sorted_le_pyLast : ∀ (l : List ℚ), l.Pairwise (fun a b => a < b) →
    ∀ x ∈ l, x ≤ pyLast 0 l
  | [], _, x, hx => by cases hx
  | [a], _, x, hx => by
    rcases List.mem_singleton.mp hx with rfl
    simp [pyLast]
  | a :: b :: t, hp, x, hx => by
    rw [pyLast_cons_cons]
    rcases List.mem_cons.mp hx with rfl | hx
    · have hlt := (List.pairwise_cons.mp hp).1 _ (pyLast_mem 0 (b :: t) (by simp))
      exact le_of_lt hlt
    · exact sorted_le_pyLast (b :: t) (List.pairwise_cons.mp hp).2 x hx

lemma sorted_pyMax_eq_pyLast (l : List ℚ) (hne : l ≠ [])
    (hp : l.Pairwise (fun a b => a < b)) : pyMax l = pyLast 0 l :=
  le_antisymm (sorted_le_pyLast l hp _ (pyMax_mem l hne))
    (le_pyMax l _ (pyLast_mem 0 l hne))

lemma sorted_head_le (l : List ℚ) (hp : l.Pairwise (fun a b => a < b)) :
    ∀ x ∈ l, l.headD 0 ≤ x := by
  cases l with
  | nil => intro x hx; cases hx
  | cons a t =>
    intro x hx
    rcases List.mem_cons.mp hx with rfl | hx
    · exact le_refl x
    · exact le_of_lt ((List.pairwise_cons.mp hp).1 x hx)

lemma sorted_pyMin_eq_head (l : List ℚ) (hne : l ≠ [])
    (hp : l.Pairwise (fun a b => a < b)) : pyMin l = l.headD 0 := by
  refine le_antisymm ?_ (sorted_head_le l hp _ (pyMin_mem l hne))
  apply pyMin_le
  cases l with
  | nil => exact absurd rfl hne
  | cons a t => exact List.mem_cons_self a t

lemma sorted_pyMin_lt_pyMax (l : List ℚ) (hlen : 2 ≤ l.length)
    (hp : l.Pairwise (fun a b => a < b)) : pyMin l < pyMax l := by
  match l, hlen with
  | a :: b :: t, _ =>
    have hab : a < b := (List.pairwise_cons.mp hp).1 b (List.mem_cons_self b t)
    have h1 : pyMin (a :: b :: t) ≤ a := pyMin_le _ a (List.mem_cons_self a _)
    have h2 : b ≤ pyMax (a :: b :: t) := le_pyMax _ b (by simp)
    exact lt_of_le_of_lt h1 (lt_of_lt_of_le hab h2)

/-! ### Helper lemmas about the tick-index computation -/

lemma truncQ_of_nonneg (q : ℚ) (h : 0 ≤ q) : truncQ q = ⌊q⌋ := if_pos h

lemma truncQ_mono (a b : ℚ) (h : a ≤ b) : truncQ a ≤ truncQ b := by
  unfold truncQ
  by_cases ha : 0 ≤ a
  · rw [if_pos ha, if_pos (le_trans ha h)]
    exact Int.floor_le_floor h
  · by_cases hb : 0 ≤ b
    · rw [if_neg ha, if_pos hb]
      refine le_trans (Int.ceil_le.mpr ?_) (Int.floor_nonneg.mpr hb)
      exact_mod_cast le_of_not_le ha
    · rw [if_neg ha, if_neg hb]
      exact Int.ceil_le_ceil h

lemma tick_index_eq_floor (m r : ℚ) (n : ℕ) (p : ℚ) (hr : 0 < r) (hp : m ≤ p)
    (hn : 1 ≤ n) : tick_index m r n p = ⌊(p - m) / r * ((n : ℚ) - 1)⌋ := by
  unfold tick_index
  apply truncQ_of_nonneg
  apply mul_nonneg
  · exact div_nonneg (sub_nonneg.mpr hp) (le_of_lt hr)
  · have : (1 : ℚ) ≤ (n : ℚ) := by exact_mod_cast hn
    linarith

lemma tick_index_nonneg (m r : ℚ) (n : ℕ) (p : ℚ) (hr : 0 < r) (hp : m ≤ p)
    (hn : 1 ≤ n) : 0 ≤ tick_index m r n p := by
  rw [tick_index_eq_floor m r n p hr hp hn]
  apply Int.floor_nonneg.mpr
  apply mul_nonneg
  · exact div_nonneg (sub_nonneg.mpr hp) (le_of_lt hr)
  · have : (1 : ℚ) ≤ (n : ℚ) := by exact_mod_cast hn
    linarith

lemma tick_index_le (m r : ℚ) (n : ℕ) (p : ℚ) (hr : 0 < r) (hp : m ≤ p)
    (hpr : p - m ≤ r) (hn : 1 ≤ n) : tick_index m r n p ≤ (n : ℤ) - 1 := by
  rw [tick_index_eq_floor m r n p hr hp hn]
  have hcast : ((n : ℤ) - 1 : ℤ) = ⌊((n : ℚ) - 1)⌋ := by
    rw [show ((n : ℚ) - 1) = (((n : ℤ) - 1 : ℤ) : ℚ) by push_cast; ring, Int.floor_intCast]
  rw [hcast]
  apply Int.floor_le_floor
  have hratio : (p - m) / r ≤ 1 := (div_le_one hr).mpr hpr
  have hn1 : (0 : ℚ) ≤ (n : ℚ) - 1 := by
    have : (1 : ℚ) ≤ (n : ℚ) := by exact_mod_cast hn
    linarith
  calc (p - m) / r * ((n : ℚ) - 1) ≤ 1 * ((n : ℚ) - 1) :=
        mul_le_mul_of_nonneg_right hratio hn1
    _ = (n : ℚ) - 1 := one_mul _

lemma tick_index_mono (m r : ℚ) (n : ℕ) (p q : ℚ) (hr : 0 < r) (hn : 1 ≤ n)
    (h : p ≤ q) : tick_index m r n p ≤ tick_index m r n q := by
  unfold tick_index
  apply truncQ_mono
  apply mul_le_mul_of_nonneg_right
  · exact (div_le_div_iff_of_pos_right hr).mpr (sub_le_sub_right h m)
  · have : (1 : ℚ) ≤ (n : ℚ) := by exact_mod_cast hn
    linarith

/-! ### The claims -/

/-- Claim C1: for every sequence that is not constant (`max > min`) and
every non-empty palette of `N` glyphs, the index computed at line 127 of
`terminal.py` for sample `s` is `⌊(s - min) / (max - min) * (N - 1)⌋`, and
this index lies in `[0, N - 1]`, so the palette indexing is in bounds. -/
theorem claim_C1 (dp : List ℚ) (ticks : List Char) (s : ℚ) (hmem : s ∈ dp)
    (hrange : pyMin dp < pyMax dp) (hN : 1 ≤ ticks.length) :
    tick_index (pyMin dp) (valRange dp) ticks.length s
      = ⌊(s - pyMin dp) / (pyMax dp - pyMin dp) * ((ticks.length : ℚ) - 1)⌋ ∧
    0 ≤ tick_index (pyMin dp) (valRange dp) ticks.length s ∧
    tick_index (pyMin dp) (valRange dp) ticks.length s ≤ (ticks.length : ℤ) - 1 := by
  have hvr : valRange dp = pyMax dp - pyMin dp := if_pos hrange
  have hr : 0 < valRange dp := valRange_pos dp
  have hp : pyMin dp ≤ s := pyMin_le dp s hmem
  have hpr : s - pyMin dp ≤ valRange dp := by
    rw [hvr]
    exact sub_le_sub_right (le_pyMax dp s hmem) _
  refine ⟨?_, tick_index_nonneg _ _ _ _ hr hp hN, tick_index_le _ _ _ _ hr hp hpr hN⟩
  rw [tick_index_eq_floor _ _ _ _ hr hp hN, hvr]

/-- Concrete instance of C1: the sequence `[3, 5]` with the 8-glyph palette,
sample `5`. -/
theorem claim_C1_witness :
    tick_index (pyMin [(3 : ℚ), 5]) (valRange [(3 : ℚ), 5]) price_ticks.length 5
      = ⌊((5 : ℚ) - pyMin [(3 : ℚ), 5]) / (pyMax [(3 : ℚ), 5] - pyMin [(3 : ℚ), 5]) *
          ((price_ticks.length : ℚ) - 1)⌋ ∧
    0 ≤ tick_index (pyMin [(3 : ℚ), 5]) (valRange [(3 : ℚ), 5]) price_ticks.length 5 ∧
    tick_index (pyMin [(3 : ℚ), 5]) (valRange [(3 : ℚ), 5]) price_ticks.length 5
      ≤ (price_ticks.length : ℤ) - 1 :=
  claim_C1 [3, 5] price_ticks 5 (by simp) (by norm_num [pyMin, pyMax])
    (by norm_num [price_ticks])

/-- Claim C2: for a non-empty constant sequence (all samples equal), every
sample is mapped to tick index 0, the lowest glyph. -/
theorem claim_C2 (dp : List ℚ) (c : ℚ) (n : ℕ) (hne : dp ≠ [])
    (hconst : ∀ x ∈ dp, x = c) :
    sparkIndices dp n = List.replicate dp.length 0 := by
  have hmin : pyMin dp = c := hconst _ (pyMin_mem dp hne)
  have hmax : pyMax dp = c := hconst _ (pyMax_mem dp hne)
  have hvr : valRange dp = 1 := by
    unfold valRange
    rw [hmin, hmax]
    simp
  apply List.eq_replicate_iff.mpr
  refine ⟨by simp [sparkIndices], ?_⟩
  intro b hb
  rcases List.mem_map.mp hb with ⟨x, hx, rfl⟩
  rw [hconst x hx, hmin, hvr]
  unfold tick_index truncQ
  norm_num

/-- Concrete instance of C2: the constant sequence `[4, 4]` with an 8-glyph
palette. -/
theorem claim_C2_witness :
    sparkIndices [(4 : ℚ), 4] 8 = List.replicate ([(4 : ℚ), 4]).length 0 :=
  claim_C2 [4, 4] 4 8 (by simp) (by simp)

/-- Recogniser of palette-glyph tokens, for counting glyphs in the output. -/
def isGlyph : SparkToken → Bool
  | SparkToken.glyph _ => true
  | _ => false

lemma reset_not_mem_tick_color (dp : List ℚ) (colorize : Bool) (i : ℕ) :
    SparkToken.reset ∉ tick_color dp colorize i := by
  unfold tick_color
  split_ifs <;> simp

lemma reset_not_mem_elem_tokens (dp : List ℚ) (ticks : List Char) (colorize : Bool) (i : ℕ) :
    SparkToken.reset ∉ elem_tokens dp ticks colorize i := by
  unfold elem_tokens glyph_at
  intro h
  rcases List.mem_append.mp h with h | h
  · exact reset_not_mem_tick_color dp colorize i h
  · simp at h

lemma countP_isGlyph_tick_color (dp : List ℚ) (colorize : Bool) (i : ℕ) :
    (tick_color dp colorize i).countP isGlyph = 0 := by
  unfold tick_color
  split_ifs <;> rfl

lemma countP_isGlyph_elem (dp : List ℚ) (ticks : List Char) (colorize : Bool) (i : ℕ) :
    (elem_tokens dp ticks colorize i).countP isGlyph = 1 := by
  unfold elem_tokens
  rw [List.countP_append, countP_isGlyph_tick_color]
  rfl

/-- Claim C3: the renderer returns the empty token string on empty input (in
particular no reset marker), and on non-empty input emits exactly one reset
marker, as the last token of the whole output. -/
theorem claim_C3 (dp : List ℚ) (ticks : List Char) (colorize : Bool) (hne : dp ≠ []) :
    create_sparkline [] ticks colorize = [] ∧
    (create_sparkline dp ticks colorize).count SparkToken.reset = 1 ∧
    (create_sparkline dp ticks colorize).getLast? = some SparkToken.reset := by
  have hie : ¬dp.isEmpty = true := by simp [List.isEmpty_iff, hne]
  refine ⟨by simp [create_sparkline], ?_, ?_⟩
  · rw [create_sparkline, if_neg hie, List.count_append]
    have hzero : ((List.range dp.length).flatMap
        (elem_tokens dp ticks colorize)).count SparkToken.reset = 0 := by
      apply List.count_eq_zero.mpr
      intro h
      rcases List.mem_flatMap.mp h with ⟨i, _, hmem⟩
      exact reset_not_mem_elem_tokens dp ticks colorize i hmem
    rw [hzero]
    rfl
  · rw [create_sparkline, if_neg hie]
    exact List.getLast?_concat _

/-- Concrete instance of C3: the sequence `[5, 3]`. -/
theorem claim_C3_witness :
    create_sparkline [] price_ticks true = [] ∧
    (create_sparkline [(5 : ℚ), 3] price_ticks true).count SparkToken.reset = 1 ∧
    (create_sparkline [(5 : ℚ), 3] price_ticks true).getLast? = some SparkToken.reset :=
  claim_C3 [5, 3] price_ticks true (by simp)

/-- Claim C4: with colouring on, element 0 carries no directional colour
marker, and element `i > 0` is prefixed with the up colour exactly when it
strictly rose and the down colour exactly when it strictly fell. -/
theorem claim_C4 (dp : List ℚ) (ticks : List Char) (i : ℕ) (hi : i < dp.length) :
    elem_tokens dp ticks true 0 = [glyph_at dp ticks 0] ∧
    (SparkToken.green ∈ elem_tokens dp ticks true i ↔
      0 < i ∧ dp.getD (i - 1) 0 < dp.getD i 0) ∧
    (SparkToken.red ∈ elem_tokens dp ticks true i ↔
      0 < i ∧ dp.getD i 0 < dp.getD (i - 1) 0) := by
  refine ⟨?_, ?_, ?_⟩
  · unfold elem_tokens tick_color
    rw [if_neg (by simp)]
    rfl
  · unfold elem_tokens tick_color glyph_at
    split_ifs <;> simp_all
  · unfold elem_tokens tick_color glyph_at
    split_ifs <;> simp_all
    linarith

/-- Concrete instance of C4: the rising pair `[1, 2]` at position 1. -/
theorem claim_C4_witness :
    elem_tokens [(1 : ℚ), 2] price_ticks true 0 = [glyph_at [(1 : ℚ), 2] price_ticks 0] ∧
    (SparkToken.green ∈ elem_tokens [(1 : ℚ), 2] price_ticks true 1 ↔
      0 < 1 ∧ ([(1 : ℚ), 2]).getD 0 0 < ([(1 : ℚ), 2]).getD 1 0) ∧
    (SparkToken.red ∈ elem_tokens [(1 : ℚ), 2] price_ticks true 1 ↔
      0 < 1 ∧ ([(1 : ℚ), 2]).getD 1 0 < ([(1 : ℚ), 2]).getD 0 0) :=
  claim_C4 [1, 2] price_ticks 1 (by simp)

/-- Claim C6: for every non-empty input sequence, the output contains exactly
one palette glyph per input sample. -/
theorem claim_C6 (dp : List ℚ) (ticks : List Char) (colorize : Bool) (hne : dp ≠ []) :
    (create_sparkline dp ticks colorize).countP isGlyph = dp.length := by
  have hie : ¬dp.isEmpty = true := by simp [List.isEmpty_iff, hne]
  rw [create_sparkline, if_neg hie, List.countP_append, List.flatMap,
    List.countP_flatten, List.map_map]
  have hmap : (List.range dp.length).map
      (List.countP isGlyph ∘ elem_tokens dp ticks colorize)
      = (List.range dp.length).map (fun _ => 1) := by
    apply List.map_congr_left
    intro a _
    exact countP_isGlyph_elem dp ticks colorize a
  rw [hmap, List.map_const']
  simp [List.sum_replicate, List.countP_cons, isGlyph]

/-- Concrete instance of C6: the sequence `[5, 3]` renders two glyphs. -/
theorem claim_C6_witness :
    (create_sparkline [(5 : ℚ), 3] price_ticks true).countP isGlyph
      = ([(5 : ℚ), 3]).length :=
  claim_C6 [5, 3] price_ticks true (by simp)

/-- Claim C5: the whole-series trend of lines 137-138 is up exactly when the
last sample strictly exceeds the first (so a tie yields down); for `[5, 3]`
the trend is down, and the sparkline is the high glyph uncoloured, then the
down colour and the low glyph, then the reset. -/
theorem claim_C5 (s : List ℚ) (hs : s ≠ []) :
    (trend_up s = true ↔ s.headD 0 < pyLast 0 s) ∧
    trend_up [(5 : ℚ), 3] = false ∧
    create_sparkline [(5 : ℚ), 3] price_ticks true =
      [SparkToken.glyph '█', SparkToken.red, SparkToken.glyph '▁', SparkToken.reset] := by
  refine ⟨by simp [trend_up, hs], ?_, ?_⟩
  · rw [trend_up]
    simp [pyLast]
    norm_num
  · have h1 : pyMin [(5 : ℚ), 3] = 3 := by norm_num [pyMin]
    have h2 : pyMax [(5 : ℚ), 3] = 5 := by norm_num [pyMax]
    have h3 : valRange [(5 : ℚ), 3] = 2 := by rw [valRange, h1, h2]; norm_num
    have hidx0 : tick_index 3 2 8 5 = 7 := by norm_num [tick_index, truncQ]
    have hidx1 : tick_index 3 2 8 3 = 0 := by norm_num [tick_index, truncQ]
    norm_num [create_sparkline, elem_tokens, tick_color, glyph_at, h1, h3, hidx0, hidx1,
      price_ticks, List.range_succ]
    rfl

/-- Concrete instance of C5: a one-element series. -/
theorem claim_C5_witness :
    (trend_up [(7 : ℚ)] = true ↔ ([(7 : ℚ)]).headD 0 < pyLast 0 [(7 : ℚ)]) ∧
    trend_up [(5 : ℚ), 3] = false ∧
    create_sparkline [(5 : ℚ), 3] price_ticks true =
      [SparkToken.glyph '█', SparkToken.red, SparkToken.glyph '▁', SparkToken.reset] :=
  claim_C5 [7] (by simp)

/-- Counterexample to claim C7 as stated: `[5]` is (vacuously) strictly
increasing, yet with the 8-glyph palette its final (only) sample gets tick
index 0, not the highest index `N - 1 = 7`. -/
theorem claim_C7_counterexample :
    List.Pairwise (fun a b : ℚ => a < b) [(5 : ℚ)] ∧
    pyLast 0 (sparkIndices [(5 : ℚ)] price_ticks.length) ≠ (price_ticks.length : ℤ) - 1 := by
  constructor
  · simp
  · norm_num [sparkIndices, pyLast, price_ticks, tick_index, truncQ, pyMin, pyMax, valRange]

/-- Claim C7, amended to sequences of at least two samples: for a strictly
increasing sequence and a non-empty palette of `N` glyphs, the tick indices
are non-decreasing, and when the sequence has at least two samples the final
sample gets the highest index `N - 1`. -/
theorem claim_C7_amended (dp : List ℚ) (ticks : List Char)
    (hsorted : dp.Pairwise (fun a b => a < b)) (hN : 1 ≤ ticks.length) :
    (sparkIndices dp ticks.length).Chain' (fun a b => a ≤ b) ∧
    (2 ≤ dp.length →
      pyLast 0 (sparkIndices dp ticks.length) = (ticks.length : ℤ) - 1) := by
  constructor
  · unfold sparkIndices
    rw [List.chain'_map]
    apply List.Chain'.imp ?_ (List.Pairwise.chain' hsorted)
    intro a b hab
    exact tick_index_mono _ _ _ a b (valRange_pos dp) hN (le_of_lt hab)
  · intro hlen
    have hne : dp ≠ [] := by
      intro h
      rw [h] at hlen
      simp at hlen
    unfold sparkIndices
    rw [pyLast_map (0 : ℚ) (0 : ℤ) _ dp hne]
    have hmax : pyMax dp = pyLast 0 dp := sorted_pyMax_eq_pyLast dp hne hsorted
    have hlt : pyMin dp < pyMax dp := sorted_pyMin_lt_pyMax dp hlen hsorted
    have hvr : valRange dp = pyMax dp - pyMin dp := if_pos hlt
    rw [← hmax, hvr]
    unfold tick_index
    rw [div_self (ne_of_gt (sub_pos.mpr hlt)), one_mul, truncQ_of_nonneg]
    · rw [show ((ticks.length : ℚ) - 1) = (((ticks.length : ℤ) - 1 : ℤ) : ℚ) by
        push_cast; ring, Int.floor_intCast]
    · have h1 : (1 : ℚ) ≤ (ticks.length : ℚ) := by exact_mod_cast hN
      linarith

/-- Concrete instance of the amended C7: the sequence `[1, 2]` with the
8-glyph palette. -/
theorem claim_C7_witness :
    (sparkIndices [(1 : ℚ), 2] price_ticks.length).Chain' (fun a b => a ≤ b) ∧
    (2 ≤ ([(1 : ℚ), 2]).length →
      pyLast 0 (sparkIndices [(1 : ℚ), 2] price_ticks.length)
        = (price_ticks.length : ℤ) - 1) :=
  claim_C7_amended [1, 2] price_ticks (by norm_num [List.pairwise_cons])
    (by norm_num [price_ticks])

/-- Claim C8: when `regularMarketPrice` or `chartPreviousClose` is missing,
the report is exactly the "could not retrieve current price" diagnostic of
line 85 — no price, market-cap, sparkline or news lines are produced. -/
theorem claim_C8 (r : ChartResult)
    (h : r.meta.regularMarketPrice = none ∨ r.meta.chartPreviousClose = none) :
    reportLines r = [Line.errNoPrice] := by
  cases hp : r.meta.regularMarketPrice with
  | none => cases hc : r.meta.chartPreviousClose <;> simp [reportLines, hp, hc]
  | some cp =>
    cases hc : r.meta.chartPreviousClose with
    | none => simp [reportLines, hp, hc]
    | some pc =>
      rcases h with h | h
      · rw [hp] at h; cases h
      · rw [hc] at h; cases h

/-- Concrete instance of C8: a chart result whose metadata is entirely
missing. -/
theorem claim_C8_witness :
    reportLines ⟨⟨none, none, none, none, none, none, none, none, none, none, none⟩,
      [], []⟩ = [Line.errNoPrice] :=
  claim_C8 _ (Or.inl rfl)

/-- Claim C9: the series handed to the renderer are the last-30 trailing
windows of the raw series with nulls dropped: each has length at most 30, is
an order-preserving sublist of the null-filtered raw series (no
interpolation), and the window itself is a suffix of the raw series of
length `min 30 (raw length)`. -/
theorem claim_C9 (r : ChartResult) :
    (pricesWindow r).length ≤ 30 ∧ (volumesWindow r).length ≤ 30 ∧
    List.Sublist (pricesWindow r) (dropNone r.close) ∧
    List.Sublist (volumesWindow r) (dropNone r.volume) ∧
    List.IsSuffix (lastN 30 r.close) r.close ∧
    List.IsSuffix (lastN 30 r.volume) r.volume ∧
    (lastN 30 r.close).length = min 30 r.close.length ∧
    (lastN 30 r.volume).length = min 30 r.volume.length := by
  have hlen : ∀ l : List (Option ℚ), (lastN 30 l).length = min 30 l.length := by
    intro l
    rw [lastN, List.length_drop]
    omega
  have hle : ∀ l : List (Option ℚ), (dropNone (lastN 30 l)).length ≤ 30 := by
    intro l
    refine le_trans (List.length_filterMap_le id _) ?_
    rw [hlen]
    omega
  exact ⟨hle r.close, hle r.volume,
    List.Sublist.filterMap id (List.drop_sublist _ _),
    List.Sublist.filterMap id (List.drop_sublist _ _),
    List.drop_suffix _ _, List.drop_suffix _ _, hlen r.close, hlen r.volume⟩

/-- Claim C10: market-cap formatting is total on nullable inputs and
partitions by magnitude — `None` renders `N/A`; at or above `10^12` the value
is divided by `10^12` and suffixed `T`; in `[10^9, 10^12)` suffixed `B`; in
`[10^6, 10^9)` suffixed `M`; below `10^6` the bare comma-grouped value. -/
theorem claim_C10 (c : ℚ) :
    format_market_cap none = MarketCapText.na ∧
    (format_market_cap (some c) = MarketCapText.trillions (c / 10 ^ 12) ↔
      10 ^ 12 ≤ c) ∧
    (format_market_cap (some c) = MarketCapText.billions (c / 10 ^ 9) ↔
      10 ^ 9 ≤ c ∧ c < 10 ^ 12) ∧
    (format_market_cap (some c) = MarketCapText.millions (c / 10 ^ 6) ↔
      10 ^ 6 ≤ c ∧ c < 10 ^ 9) ∧
    (format_market_cap (some c) = MarketCapText.plain c ↔ c < 10 ^ 6) := by
  refine ⟨rfl, ?_, ?_, ?_, ?_⟩ <;>
  · unfold format_market_cap
    dsimp only
    split_ifs <;> simp_all <;> intros <;> linarith

end Terminal
